import Mathlib

/-!
Shallow embedding of `dhcp_server.go` (package main): the lease-allocation
engine of a small DHCP server.

Modelling conventions:
* IPv4 addresses are `Nat` (the 32-bit big-endian value, built by `mkIPv4`);
  `net.IP.Equal` on addresses produced by this server coincides with equality
  of these numbers, and string forms of reserved addresses are assumed
  canonical, so the raw-string comparison at line 128 of the source coincides
  with equality of parse results.
* Hardware addresses are their canonical `String` form (`mac.String()` in Go),
  which is the key type of both Go maps involved.
* `config.ReservedAddresses : map[string]string` is modelled with each value
  already run through `net.ParseIP`: an entry `(mac, none)` is a configured
  value that does not parse, `(mac, some ip)` one that parses to `ip`.
* `time.Time` is `Nat`; the several `time.Now()` reads inside one
  `getIPForClient` call are modelled as a single instant `now`.
  Go `now.After(e)` is `e < now`; `now.Before(e)` is `now < e`.
* `s.leases : map[string]*Lease` is an association list without duplicate
  keys; pointer mutation of a `*Lease` is update-in-place of the entry.
  Go map iteration order is unspecified, so the one loop whose visible
  effect depends on it (the expiry sweep, source lines 123-145) takes the
  iteration order as an explicit parameter `order`; a run of the Go program
  corresponds to some `order` that is a permutation of the map's keys.
-/

namespace DHCP

abbrev IP := Nat

abbrev MacStr := String

/-- The 32-bit value of the dotted-quad IPv4 address `a.b.c.d`. -/
def mkIPv4 (a b c d : Nat) : IP := ((a * 256 + b) * 256 + c) * 256 + d

/-- `Lease` struct, source lines 24-28. `mac` is stored in canonical string
form; the source stores a `net.HardwareAddr` whose `String()` equals the
map key, and never reads the field back. -/
structure Lease where
  ip : IP
  mac : MacStr
  expiresAt : Nat
deriving DecidableEq, Repr

/-- `Config` struct, source lines 18-21, with reservation values
pre-parsed (see module comment). -/
structure Config where
  reservedAddresses : List (MacStr × Option IP)
  leaseDuration : Nat
deriving DecidableEq, Repr

/-- The mutable allocator state of `DHCPServer`, source lines 31-38
(the subnet mask and gateway fields play no part in allocation). -/
structure ServerState where
  config : Config
  leases : List (MacStr × Lease)
  availableIPs : List IP
deriving DecidableEq, Repr

/-- Go map read `m[k]` for the lease table. -/
def lookupMac (m : List (MacStr × Lease)) (k : MacStr) : Option Lease :=
  match m with
  | [] => none
  | p :: rest => if p.1 = k then some p.2 else lookupMac rest k

/-- Go map read `config.ReservedAddresses[k]`. -/
def lookupReserved (r : List (MacStr × Option IP)) (k : MacStr) : Option (Option IP) :=
  match r with
  | [] => none
  | p :: rest => if p.1 = k then some p.2 else lookupReserved rest k

/-- Go map write `m[k] = v`: update in place when present, add otherwise. -/
def setLease (m : List (MacStr × Lease)) (k : MacStr) (v : Lease) :
    List (MacStr × Lease) :=
  match m with
  | [] => [(k, v)]
  | p :: rest => if p.1 = k then (k, v) :: rest else p :: setLease rest k v

/-- Go map `delete(m, k)`. -/
def delLease (m : List (MacStr × Lease)) (k : MacStr) : List (MacStr × Lease) :=
  match m with
  | [] => []
  | p :: rest => if p.1 = k then delLease rest k else p :: delLease rest k

/-- The values of `ReservedAddresses` that parse as addresses
(source lines 53-56 collects the raw value strings). -/
def reservedIPValues (r : List (MacStr × Option IP)) : List IP :=
  r.filterMap (fun p => p.2)

/-- Pool construction, source lines 58-65: addresses `192.168.2.2` through
`192.168.2.254` in order, skipping any that is a reserved value. -/
def mkAvailableIPs (r : List (MacStr × Option IP)) : List IP :=
  (List.range' 2 253).filterMap (fun i =>
    let ip := mkIPv4 192 168 2 i
    if ip ∈ reservedIPValues r then none else some ip)

/-- The scan at source lines 108-113 (and again at 134-139): does some entry
with a key other than `macStr` bind `ip` under a not-yet-expired lease? -/
def heldByOther (leases : List (MacStr × Lease)) (macStr : MacStr) (ip : IP)
    (now : Nat) : Bool :=
  leases.any (fun p => decide (p.1 ≠ macStr ∧ p.2.ip = ip ∧ now < p.2.expiresAt))

/-- The scan at source lines 126-132: is `ip` one of the configured
reservation values? -/
def ipIsReserved (r : List (MacStr × Option IP)) (ip : IP) : Bool :=
  decide (ip ∈ reservedIPValues r)

/-- One iteration of the expiry-reclamation loop body, source lines 123-144:
if entry `m` exists, is not the requester's, has expired, and its address is
neither a reserved value nor actively held by another entry, append the
address to the pool; the lease record itself is never removed
(source line 143). -/
def sweepStep (r : List (MacStr × Option IP)) (leases : List (MacStr × Lease))
    (macStr : MacStr) (now : Nat) (pool : List IP) (m : MacStr) : List IP :=
  match lookupMac leases m with
  | none => pool
  | some lease =>
    if decide (lease.expiresAt < now) && decide (m ≠ macStr)
        && !ipIsReserved r lease.ip && !heldByOther leases m lease.ip now
    then pool ++ [lease.ip] else pool

/-- The expiry-reclamation sweep, source lines 122-145: walk the lease table
in map-iteration order `order`, applying `sweepStep` to each key. -/
def sweepReclaim (r : List (MacStr × Option IP)) (leases : List (MacStr × Lease))
    (macStr : MacStr) (now : Nat) (order : List MacStr) (pool : List IP) :
    List IP :=
  order.foldl (sweepStep r leases macStr now) pool

inductive ResolveErr where
  | invalidReserved
  | poolExhausted
deriving DecidableEq, Repr

instance : DecidableEq (Except ResolveErr IP) := fun a b =>
  match a, b with
  | .ok x, .ok y => if h : x = y then .isTrue (by rw [h]) else .isFalse (by simp [h])
  | .error x, .error y => if h : x = y then .isTrue (by rw [h]) else .isFalse (by simp [h])
  | .ok _, .error _ => .isFalse (by simp)
  | .error _, .ok _ => .isFalse (by simp)

/-- A freshly created lease record (source lines 94-98 and 153-157). -/
def newLeaseFor (macStr : MacStr) (ip : IP) (now dur : Nat) : Lease :=
  { ip := ip, mac := macStr, expiresAt := now + dur }

/-- Source lines 122-159: the sweep followed by the new-address draw.
Called with the lease table as it stands after the existing-lease check
(the requester's entry, if any, already deleted). On exhaustion the Go
function returns an error with the swept state in place. -/
def allocateNew (cfg : Config) (leases : List (MacStr × Lease)) (pool : List IP)
    (macStr : MacStr) (now : Nat) (order : List MacStr) :
    Except ResolveErr IP × ServerState :=
  match sweepReclaim cfg.reservedAddresses leases macStr now order pool with
  | [] => (.error .poolExhausted,
      { config := cfg, leases := leases, availableIPs := [] })
  | ip :: rest =>
    (.ok ip,
      { config := cfg,
        leases := setLease leases macStr (newLeaseFor macStr ip now cfg.leaseDuration),
        availableIPs := rest })

/-- `getIPForClient`, source lines 77-160 (the whole body runs under the
server mutex; one call is one atomic step). Returns the Go `(net.IP, error)`
pair together with the state the call leaves behind. -/
def resolve (s : ServerState) (macStr : MacStr) (now : Nat) (order : List MacStr) :
    Except ResolveErr IP × ServerState :=
  match lookupReserved s.config.reservedAddresses macStr with
  | some none => (.error .invalidReserved, s)
  | some (some ip) =>
    let leases :=
      match lookupMac s.leases macStr with
      | some lease => setLease s.leases macStr
          { lease with ip := ip, expiresAt := now + s.config.leaseDuration }
      | none => setLease s.leases macStr
          (newLeaseFor macStr ip now s.config.leaseDuration)
    (.ok ip, { s with leases := leases })
  | none =>
    match lookupMac s.leases macStr with
    | some lease =>
      if heldByOther s.leases macStr lease.ip now then
        allocateNew s.config (delLease s.leases macStr) s.availableIPs macStr now order
      else
        let renewed : Lease := { lease with expiresAt := now + s.config.leaseDuration }
        (.ok lease.ip, { s with leases := setLease s.leases macStr renewed })
    | none => allocateNew s.config s.leases s.availableIPs macStr now order

/-- `ServeDHCP`, source lines 163-221, restricted to its allocation-visible
behaviour: both DISCOVER and REQUEST call `resolve`; on any error the
request is dropped (no reply), otherwise the resolved address is offered. -/
def serveDHCP (s : ServerState) (macStr : MacStr) (now : Nat)
    (order : List MacStr) : Option IP × ServerState :=
  match resolve s macStr now order with
  | (.ok ip, s1) => (some ip, s1)
  | (.error _, s1) => (none, s1)

/-- Run a sequence of `resolve` calls (one per client request), each sweep
iterating the lease table in its insertion order; returns the list of
results and the final state. -/
def runAll (s : ServerState) : List (MacStr × Nat) →
    List (Except ResolveErr IP) × ServerState
  | [] => ([], s)
  | c :: cs =>
    let r := resolve s c.1 c.2 (s.leases.map Prod.fst)
    let rest := runAll r.2 cs
    (r.1 :: rest.1, rest.2)

/-- No IP address is bound, unexpired at instant `now`, to two different
hardware addresses. -/
def noDoubleBinding (leases : List (MacStr × Lease)) (now : Nat) : Prop :=
  ∀ p ∈ leases, ∀ q ∈ leases,
    p.1 ≠ q.1 → now < p.2.expiresAt → now < q.2.expiresAt → p.2.ip ≠ q.2.ip

instance (leases : List (MacStr × Lease)) (now : Nat) :
    Decidable (noDoubleBinding leases now) := by
  unfold noDoubleBinding; infer_instance

/-- Number of addresses bound at instant `now` by unexpired leases whose
address is not a reserved value. -/
def activeNonReservedCount (s : ServerState) (now : Nat) : Nat :=
  (s.leases.filter (fun p =>
    decide (now < p.2.expiresAt) && !ipIsReserved s.config.reservedAddresses p.2.ip)).length

/-- Pool-conservation bound: pool size plus addresses under unexpired
non-reserved leases plus reserved addresses is at most the range size. -/
def poolConservation (s : ServerState) (now : Nat) (total : Nat) : Prop :=
  s.availableIPs.length + activeNonReservedCount s now
    + (reservedIPValues s.config.reservedAddresses).length ≤ total

instance (s : ServerState) (now total : Nat) :
    Decidable (poolConservation s now total) := by
  unfold poolConservation; infer_instance

/-- The 3-address scenario of the spec: range `10.0.0.2`-`10.0.0.4`, no
reservations, lease duration 1 second; `A`, `B`, `C` obtain addresses at
time 0, `D`'s first call exhausts the pool. -/
def scenarioState : ServerState :=
  (runAll ⟨⟨[], 1⟩, [], [mkIPv4 10 0 0 2, mkIPv4 10 0 0 3, mkIPv4 10 0 0 4]⟩
    [("aa", 0), ("bb", 0), ("cc", 0), ("dd", 0)]).2

/-- Modelled from the spec: the Address Pool an implementation with a
configured `range` field would build — "`range`: inclusive [start, end]
pair of addresses defining the dynamic pool before reservation exclusion";
"an ordered sequence of addresses drawn from `range`, with every address
present in `reservedAddresses` removed at construction time". -/
def specAddressPool (start stop : IP) (r : List (MacStr × Option IP)) : List IP :=
  (List.range' start (stop + 1 - start)).filter
    (fun ip => decide (ip ∉ reservedIPValues r))

/-! ### Association-list lemmas -/

theorem lookupMac_setLease_self (m : List (MacStr × Lease)) (k : MacStr) (v : Lease) :
    lookupMac (setLease m k v) k = some v := by
  induction m with
  | nil => simp [setLease, lookupMac]
  | cons p rest ih =>
    obtain ⟨a, b⟩ := p
    by_cases h : a = k
    · simp [setLease, h, lookupMac]
    · simp [setLease, h, lookupMac, ih]

theorem lookupMac_setLease_ne (m : List (MacStr × Lease)) (k k' : MacStr) (v : Lease)
    (h : k' ≠ k) : lookupMac (setLease m k v) k' = lookupMac m k' := by
  have hkk : ¬ (k = k') := fun e => h e.symm
  induction m with
  | nil => simp [setLease, lookupMac, hkk]
  | cons p rest ih =>
    obtain ⟨a, b⟩ := p
    by_cases hp : a = k
    · simp [setLease, hp, lookupMac, hkk]
    · simp [setLease, hp, lookupMac, ih]

theorem lookupMac_delLease_ne (m : List (MacStr × Lease)) (k k' : MacStr)
    (h : k' ≠ k) : lookupMac (delLease m k) k' = lookupMac m k' := by
  have hkk : ¬ (k = k') := fun e => h e.symm
  induction m with
  | nil => rfl
  | cons p rest ih =>
    obtain ⟨a, b⟩ := p
    by_cases hp : a = k
    · simp [delLease, hp, lookupMac, hkk, ih]
    · by_cases hk : a = k'
      · simp [delLease, hp, lookupMac, hk, h]
      · simp [delLease, hp, lookupMac, hk, ih]

theorem lookupMac_mem (m : List (MacStr × Lease)) (k : MacStr) (v : Lease)
    (h : lookupMac m k = some v) : (k, v) ∈ m := by
  induction m with
  | nil => simp [lookupMac] at h
  | cons p rest ih =>
    obtain ⟨a, b⟩ := p
    by_cases hp : a = k
    · simp only [lookupMac, if_pos hp] at h
      injection h with h
      rw [← hp, ← h]
      exact List.mem_cons_self _ _
    · simp only [lookupMac, if_neg hp] at h
      exact List.mem_cons_of_mem _ (ih h)

theorem setLease_of_absent (m : List (MacStr × Lease)) (k : MacStr) (v : Lease)
    (h : lookupMac m k = none) : setLease m k v = m ++ [(k, v)] := by
  induction m with
  | nil => rfl
  | cons p rest ih =>
    obtain ⟨a, b⟩ := p
    by_cases hp : a = k
    · simp [lookupMac, hp] at h
    · simp only [lookupMac, if_neg hp] at h
      simp [setLease, hp, ih h]

theorem lookupMac_append_of_none (m1 m2 : List (MacStr × Lease)) (k : MacStr)
    (h : lookupMac m1 k = none) : lookupMac (m1 ++ m2) k = lookupMac m2 k := by
  induction m1 with
  | nil => rfl
  | cons p rest ih =>
    obtain ⟨a, b⟩ := p
    by_cases hp : a = k
    · simp [lookupMac, hp] at h
    · simp only [lookupMac, if_neg hp] at h
      simp only [List.cons_append, lookupMac, if_neg hp]
      exact ih h

theorem lookupMac_of_keys_ne (m : List (MacStr × Lease)) (k : MacStr)
    (h : ∀ p ∈ m, p.1 ≠ k) : lookupMac m k = none := by
  induction m with
  | nil => rfl
  | cons p rest ih =>
    obtain ⟨a, b⟩ := p
    have ha : a ≠ k := h (a, b) (List.mem_cons_self _ _)
    simp only [lookupMac, if_neg ha]
    exact ih fun q hq => h q (List.mem_cons_of_mem _ hq)

/-! ### Sweep lemmas -/

theorem sweepReclaim_noop (r : List (MacStr × Option IP))
    (leases : List (MacStr × Lease)) (macStr : MacStr) (now : Nat)
    (ord : List MacStr) (pool : List IP)
    (h : ∀ p ∈ leases, ¬ p.2.expiresAt < now) :
    sweepReclaim r leases macStr now ord pool = pool := by
  induction ord generalizing pool with
  | nil => rfl
  | cons m ms ih =>
    have hstep : sweepStep r leases macStr now pool m = pool := by
      unfold sweepStep
      cases hm : lookupMac leases m with
      | none => rfl
      | some lease =>
        have hexp : ¬ lease.expiresAt < now := h (m, lease) (lookupMac_mem _ _ _ hm)
        simp [hexp]
    unfold sweepReclaim at ih ⊢
    rw [List.foldl_cons, hstep]
    exact ih pool

/-! ### General facts about `resolve` -/

theorem resolve_config (s : ServerState) (mac : MacStr) (now : Nat)
    (ord : List MacStr) : ((resolve s mac now ord).2).config = s.config := by
  unfold resolve allocateNew
  repeat' split
  all_goals rfl

theorem resolve_ok_binds (s : ServerState) (mac : MacStr) (now : Nat)
    (ord : List MacStr) (ip : IP) (s' : ServerState)
    (hres : lookupReserved s.config.reservedAddresses mac = none)
    (h : resolve s mac now ord = (.ok ip, s')) :
    ∃ l, lookupMac s'.leases mac = some l ∧ l.ip = ip := by
  unfold resolve allocateNew at h
  rcases hl : lookupMac s.leases mac with _ | lease <;>
    simp only [hres, hl] at h
  · rcases hs : sweepReclaim s.config.reservedAddresses s.leases mac now ord
        s.availableIPs with _ | ⟨ip0, rest⟩ <;>
      simp only [hs] at h
    · simp at h
    · injection h with h1 h2
      injection h1 with h1
      subst h1 h2
      exact ⟨_, lookupMac_setLease_self _ _ _, rfl⟩
  · by_cases hheld : heldByOther s.leases mac lease.ip now = true
    · rw [if_pos hheld] at h
      rcases hs : sweepReclaim s.config.reservedAddresses (delLease s.leases mac)
          mac now ord s.availableIPs with _ | ⟨ip0, rest⟩ <;>
        simp only [hs] at h
      · simp at h
      · injection h with h1 h2
        injection h1 with h1
        subst h1 h2
        exact ⟨_, lookupMac_setLease_self _ _ _, rfl⟩
    · rw [if_neg hheld] at h
      injection h with h1 h2
      injection h1 with h1
      subst h1 h2
      exact ⟨_, lookupMac_setLease_self _ _ _, rfl⟩

/-! ### Claim theorems -/

/-- C1: the spec claims that for every sequence of `resolve` calls from
distinct hardware addresses, no IP address is ever bound by two unexpired
leases for different hardware addresses. The code violates this: with a
2-address pool and lease duration 10, the four calls `aa@0, bb@11, cc@12,
dd@13` all succeed, yet afterwards `cc` and `dd` hold unexpired leases on
the same address (the sweep re-adds `aa`'s expired address to the pool once
per call, so it is handed out twice). -/
theorem C1_no_double_binding_refuted :
    (runAll ⟨⟨[], 10⟩, [], [mkIPv4 192 168 2 2, mkIPv4 192 168 2 3]⟩
        [("aa", 0), ("bb", 11), ("cc", 12), ("dd", 13)]).1 =
      [.ok (mkIPv4 192 168 2 2), .ok (mkIPv4 192 168 2 3),
       .ok (mkIPv4 192 168 2 2), .ok (mkIPv4 192 168 2 2)] ∧
    ¬ noDoubleBinding
      (runAll ⟨⟨[], 10⟩, [], [mkIPv4 192 168 2 2, mkIPv4 192 168 2 3]⟩
        [("aa", 0), ("bb", 11), ("cc", 12), ("dd", 13)]).2.leases 13 := by
  constructor
  · decide
  · decide

/-- C2: the spec claims pool size plus unexpired non-reserved leases plus
reserved addresses never exceeds the range size, and that a reclaimed
address re-enters the pool exactly once per expiry event. The code violates
both: after `aa@0, bb@11` on a 2-address pool (duration 10), the sweep run
by `cc@12` returns `aa`'s single expired address to the pool a second time,
and after `cc`'s call the conservation bound 2 is exceeded. -/
theorem C2_pool_conservation_refuted :
    sweepReclaim []
        (runAll ⟨⟨[], 10⟩, [], [mkIPv4 192 168 2 2, mkIPv4 192 168 2 3]⟩
          [("aa", 0), ("bb", 11)]).2.leases "cc" 12
        ((runAll ⟨⟨[], 10⟩, [], [mkIPv4 192 168 2 2, mkIPv4 192 168 2 3]⟩
          [("aa", 0), ("bb", 11)]).2.leases.map Prod.fst)
        (runAll ⟨⟨[], 10⟩, [], [mkIPv4 192 168 2 2, mkIPv4 192 168 2 3]⟩
          [("aa", 0), ("bb", 11)]).2.availableIPs =
      [mkIPv4 192 168 2 2, mkIPv4 192 168 2 2] ∧
    ¬ poolConservation
      (runAll ⟨⟨[], 10⟩, [], [mkIPv4 192 168 2 2, mkIPv4 192 168 2 3]⟩
        [("aa", 0), ("bb", 11), ("cc", 12)]).2 12 2 := by
  constructor
  · decide
  · decide

/-- C3: for a hardware address whose configured reservation parses to `ip`,
every `resolve` call returns `ip`, whatever the pool and lease table hold. -/
theorem C3_reservation_precedence (s : ServerState) (mac : MacStr) (now : Nat)
    (ord : List MacStr) (ip : IP)
    (hres : lookupReserved s.config.reservedAddresses mac = some (some ip)) :
    (resolve s mac now ord).1 = .ok ip := by
  unfold resolve
  rw [hres]

theorem C3_reservation_precedence_witness :
    lookupReserved (Config.reservedAddresses ⟨[("ra", some (mkIPv4 192 168 2 90))], 7⟩)
        "ra" = some (some (mkIPv4 192 168 2 90)) ∧
    (resolve ⟨⟨[("ra", some (mkIPv4 192 168 2 90))], 7⟩,
        [("ra", ⟨mkIPv4 192 168 2 50, "ra", 99⟩)], []⟩ "ra" 3 []).1 =
      .ok (mkIPv4 192 168 2 90) :=
  ⟨by decide,
   C3_reservation_precedence ⟨⟨[("ra", some (mkIPv4 192 168 2 90))], 7⟩,
     [("ra", ⟨mkIPv4 192 168 2 50, "ra", 99⟩)], []⟩ "ra" 3 []
     (mkIPv4 192 168 2 90) (by decide)⟩

/-- C9: a configured reservation value that does not parse makes `resolve`
fail with an error on every lookup of that hardware address, leaving the
state untouched; the serving layer then drops the request exactly as it
drops a pool-exhausted one. -/
theorem C9_invalid_reservation_drops (s : ServerState) (mac : MacStr)
    (now : Nat) (ord : List MacStr)
    (hres : lookupReserved s.config.reservedAddresses mac = some none) :
    resolve s mac now ord = (.error .invalidReserved, s) ∧
    serveDHCP s mac now ord = (none, s) := by
  have h1 : resolve s mac now ord = (.error .invalidReserved, s) := by
    unfold resolve
    rw [hres]
  refine ⟨h1, ?_⟩
  unfold serveDHCP
  rw [h1]

theorem C9_invalid_reservation_drops_witness :
    lookupReserved (Config.reservedAddresses ⟨[("rb", none)], 7⟩) "rb" = some none ∧
    resolve ⟨⟨[("rb", none)], 7⟩, [], [mkIPv4 192 168 2 9]⟩ "rb" 0 [] =
      (.error .invalidReserved, ⟨⟨[("rb", none)], 7⟩, [], [mkIPv4 192 168 2 9]⟩) ∧
    serveDHCP ⟨⟨[("rb", none)], 7⟩, [], [mkIPv4 192 168 2 9]⟩ "rb" 0 [] =
      (none, ⟨⟨[("rb", none)], 7⟩, [], [mkIPv4 192 168 2 9]⟩) := by
  refine ⟨by decide, ?_⟩
  exact C9_invalid_reservation_drops ⟨⟨[("rb", none)], 7⟩, [], [mkIPv4 192 168 2 9]⟩
    "rb" 0 [] (by decide)

/-- C10: the reclamation sweep removes nothing from the lease table — more
strongly, a `resolve` call for `mac` leaves the record of every other
hardware address exactly as it was (only the pool absorbs reclaimed
addresses, and only `mac`'s own entry is created, renewed, or discarded). -/
theorem C10_reclamation_preserves_records (s : ServerState) (mac : MacStr)
    (now : Nat) (ord : List MacStr) (k : MacStr) (hk : k ≠ mac) :
    lookupMac ((resolve s mac now ord).2).leases k = lookupMac s.leases k := by
  unfold resolve allocateNew
  repeat' split
  all_goals first
    | rfl
    | exact lookupMac_setLease_ne _ _ _ _ hk
    | exact lookupMac_delLease_ne _ _ _ hk
    | (rw [show ∀ (l : List (MacStr × Lease)) (p : List IP),
          (ServerState.mk s.config l p).leases = l from fun _ _ => rfl,
        lookupMac_setLease_ne _ _ _ _ hk]
       first
        | rfl
        | exact lookupMac_delLease_ne _ _ _ hk)

theorem C10_reclamation_preserves_records_witness :
    "bb" ≠ "aa" ∧
    lookupMac ((resolve ⟨⟨[], 10⟩, [("aa", ⟨5, "aa", 1⟩), ("bb", ⟨6, "bb", 1⟩)], []⟩
        "aa" 8 ["aa", "bb"]).2).leases "bb" =
      lookupMac [("aa", ⟨5, "aa", 1⟩), ("bb", ⟨6, "bb", 1⟩)] "bb" :=
  ⟨by decide,
   C10_reclamation_preserves_records
     ⟨⟨[], 10⟩, [("aa", ⟨5, "aa", 1⟩), ("bb", ⟨6, "bb", 1⟩)], []⟩
     "aa" 8 ["aa", "bb"] "bb" (by decide)⟩

/-- C4: stickiness — for a non-reserved hardware address, a successful
`resolve` followed by a second `resolve` within the lease window, with no
other client actively holding the bound IP, returns the same address. -/
theorem C4_stickiness (s : ServerState) (mac : MacStr) (t1 t2 : Nat)
    (ord1 ord2 : List MacStr) (ip : IP) (s1 : ServerState)
    (hres : lookupReserved s.config.reservedAddresses mac = none)
    (h1 : resolve s mac t1 ord1 = (.ok ip, s1))
    (hwin1 : t1 ≤ t2) (hwin2 : t2 ≤ t1 + s.config.leaseDuration)
    (hfree : heldByOther s1.leases mac ip t2 = false) :
    (resolve s1 mac t2 ord2).1 = .ok ip := by
  obtain ⟨l, hl, hlip⟩ := resolve_ok_binds s mac t1 ord1 ip s1 hres h1
  have hcfg : s1.config = s.config := by
    have hc := resolve_config s mac t1 ord1
    rw [h1] at hc
    exact hc
  unfold resolve
  rw [hcfg, hres]
  simp only [hl, hlip, hfree, Bool.false_eq_true, if_false]

/-- C5: when a non-reserved client's recorded address is actively held by
another client, `resolve` discards the old record and allocates the head of
the (post-sweep) pool: the result is that pool head, the client's table
entry is a fresh lease bound to it, and the head is removed from the pool. -/
theorem C5_conflict_discards_and_reallocates (s : ServerState) (mac : MacStr)
    (now : Nat) (ord : List MacStr) (lease : Lease) (ip : IP) (rest : List IP)
    (hres : lookupReserved s.config.reservedAddresses mac = none)
    (hl : lookupMac s.leases mac = some lease)
    (hconf : heldByOther s.leases mac lease.ip now = true)
    (hsweep : sweepReclaim s.config.reservedAddresses (delLease s.leases mac)
        mac now ord s.availableIPs = ip :: rest) :
    (resolve s mac now ord).1 = .ok ip ∧
    lookupMac ((resolve s mac now ord).2).leases mac =
      some (newLeaseFor mac ip now s.config.leaseDuration) ∧
    ((resolve s mac now ord).2).availableIPs = rest := by
  have hr : resolve s mac now ord =
      (.ok ip, ⟨s.config, setLease (delLease s.leases mac) mac
        (newLeaseFor mac ip now s.config.leaseDuration), rest⟩) := by
    unfold resolve allocateNew
    simp only [hres, hl, hconf, if_true, hsweep]
  rw [hr]
  exact ⟨rfl, lookupMac_setLease_self _ _ _, rfl⟩

theorem C4_stickiness_witness :
    lookupReserved (Config.reservedAddresses ⟨[], 10⟩) "aa" = none ∧
    resolve ⟨⟨[], 10⟩, [], [5]⟩ "aa" 0 [] =
      (.ok 5, ⟨⟨[], 10⟩, [("aa", ⟨5, "aa", 10⟩)], []⟩) ∧
    heldByOther [("aa", ⟨5, "aa", 10⟩)] "aa" 5 3 = false ∧
    (resolve ⟨⟨[], 10⟩, [("aa", ⟨5, "aa", 10⟩)], []⟩ "aa" 3 []).1 = .ok 5 := by
  refine ⟨by decide, by decide, by decide, ?_⟩
  exact C4_stickiness ⟨⟨[], 10⟩, [], [5]⟩ "aa" 0 3 [] [] 5
    ⟨⟨[], 10⟩, [("aa", ⟨5, "aa", 10⟩)], []⟩ (by decide) (by decide)
    (by decide) (by decide) (by decide)

theorem C5_conflict_discards_and_reallocates_witness :
    lookupMac [("aa", ⟨5, "aa", 0⟩), ("bb", ⟨5, "bb", 100⟩)] "aa" =
      some ⟨5, "aa", 0⟩ ∧
    heldByOther [("aa", ⟨5, "aa", 0⟩), ("bb", ⟨5, "bb", 100⟩)] "aa" 5 10 = true ∧
    (resolve ⟨⟨[], 10⟩, [("aa", ⟨5, "aa", 0⟩), ("bb", ⟨5, "bb", 100⟩)], [7]⟩
        "aa" 10 ["bb"]).1 = .ok 7 ∧
    lookupMac ((resolve ⟨⟨[], 10⟩, [("aa", ⟨5, "aa", 0⟩), ("bb", ⟨5, "bb", 100⟩)],
        [7]⟩ "aa" 10 ["bb"]).2).leases "aa" = some ⟨7, "aa", 20⟩ ∧
    ((resolve ⟨⟨[], 10⟩, [("aa", ⟨5, "aa", 0⟩), ("bb", ⟨5, "bb", 100⟩)], [7]⟩
        "aa" 10 ["bb"]).2).availableIPs = [] := by
  refine ⟨by decide, by decide, ?_⟩
  have h := C5_conflict_discards_and_reallocates
    ⟨⟨[], 10⟩, [("aa", ⟨5, "aa", 0⟩), ("bb", ⟨5, "bb", 100⟩)], [7]⟩
    "aa" 10 ["bb"] ⟨5, "aa", 0⟩ 7 [] (by decide) (by decide) (by decide) (by decide)
  exact ⟨h.1, h.2.1, h.2.2⟩

/-! ### Fresh-allocation run lemmas (for the exhaustion claim) -/

theorem resolve_fresh (s : ServerState) (mac : MacStr) (now : Nat)
    (ord : List MacStr) (ip : IP) (rest : List IP)
    (hres : lookupReserved s.config.reservedAddresses mac = none)
    (hl : lookupMac s.leases mac = none)
    (hexp : ∀ p ∈ s.leases, ¬ p.2.expiresAt < now)
    (hpool : s.availableIPs = ip :: rest) :
    resolve s mac now ord =
      (.ok ip, ⟨s.config,
        s.leases ++ [(mac, newLeaseFor mac ip now s.config.leaseDuration)], rest⟩) := by
  unfold resolve allocateNew
  simp only [hres, hl, sweepReclaim_noop _ _ _ _ _ _ hexp, hpool,
    setLease_of_absent _ _ _ hl]

theorem runAll_fresh (cfg : Config) (t : Nat)
    (hres : cfg.reservedAddresses = []) (macs : List MacStr) :
    ∀ (pool : List IP) (L : List (MacStr × Lease)),
    macs.Nodup →
    (∀ m ∈ macs, lookupMac L m = none) →
    (∀ p ∈ L, ¬ p.2.expiresAt < t) →
    macs.length = pool.length →
    runAll ⟨cfg, L, pool⟩ (macs.map (fun m => (m, t))) =
      (pool.map Except.ok,
       ⟨cfg, L ++ (macs.zip pool).map
          (fun q => (q.1, newLeaseFor q.1 q.2 t cfg.leaseDuration)), []⟩) := by
  induction macs with
  | nil =>
    intro pool L _ _ _ hlen
    cases pool with
    | nil => simp [runAll]
    | cons a b => simp at hlen
  | cons m ms ih =>
    intro pool L hnodup hfresh hexp hlen
    cases pool with
    | nil => simp at hlen
    | cons ip ps =>
      have hstep := resolve_fresh ⟨cfg, L, ip :: ps⟩ m t (L.map Prod.fst) ip ps
        (by rw [show (ServerState.mk cfg L (ip :: ps)).config = cfg from rfl, hres]
            rfl)
        (hfresh m (List.mem_cons_self _ _)) hexp rfl
      have hlease : ∀ m1 ∈ ms,
          lookupMac (L ++ [(m, newLeaseFor m ip t cfg.leaseDuration)]) m1 = none := by
        intro m1 hm1
        rw [lookupMac_append_of_none _ _ _ (hfresh m1 (List.mem_cons_of_mem _ hm1))]
        have hne : m ≠ m1 := by
          rintro rfl
          exact (List.nodup_cons.mp hnodup).1 hm1
        simp [lookupMac, hne]
      have hexp1 : ∀ p ∈ L ++ [(m, newLeaseFor m ip t cfg.leaseDuration)],
          ¬ p.2.expiresAt < t := by
        intro p hp
        rcases List.mem_append.mp hp with hp | hp
        · exact hexp p hp
        · simp at hp
          rw [hp]
          simp [newLeaseFor]
      have hlen1 : ms.length = ps.length := by
        simpa using hlen
      have hrec := ih ps (L ++ [(m, newLeaseFor m ip t cfg.leaseDuration)])
        (List.nodup_cons.mp hnodup).2 hlease hexp1 hlen1
      simp only [List.map_cons, runAll, hstep, hrec]
      simp [List.append_assoc]

/-- C6: with zero reservations, a pool of size N, and no expiries, N distinct
hardware addresses each successfully obtain an address (draining the pool in
order); a further distinct hardware address then fails with pool-exhausted.
Moreover, for any non-reserved client with no existing lease, the
new-allocation draw fails with pool-exhausted exactly when the (post-sweep)
pool is empty. -/
theorem C6_pool_exhaustion (dur t : Nat) (pool : List IP) (macs : List MacStr)
    (newMac : MacStr) (ord : List MacStr)
    (hnodup : macs.Nodup) (hlen : macs.length = pool.length)
    (hnew : newMac ∉ macs) :
    (runAll ⟨⟨[], dur⟩, [], pool⟩ (macs.map (fun m => (m, t)))).1 =
      pool.map Except.ok ∧
    (resolve (runAll ⟨⟨[], dur⟩, [], pool⟩ (macs.map (fun m => (m, t)))).2
        newMac t ord).1 = .error .poolExhausted ∧
    (∀ (s : ServerState) (mac : MacStr) (now : Nat) (ord1 : List MacStr),
      lookupReserved s.config.reservedAddresses mac = none →
      lookupMac s.leases mac = none →
      ((resolve s mac now ord1).1 = .error .poolExhausted ↔
        sweepReclaim s.config.reservedAddresses s.leases mac now ord1
          s.availableIPs = [])) := by
  have hrun := runAll_fresh ⟨[], dur⟩ t rfl macs pool [] hnodup
    (fun m _ => rfl) (fun p hp => by simp at hp) hlen
  have hfs : (runAll ⟨⟨[], dur⟩, [], pool⟩ (macs.map (fun m => (m, t)))).2 =
      ⟨⟨[], dur⟩, (macs.zip pool).map
        (fun q => (q.1, newLeaseFor q.1 q.2 t dur)), []⟩ := by
    rw [hrun]
    rfl
  refine ⟨by rw [hrun], ?_, ?_⟩
  · rw [hfs]
    have hl : lookupMac ((macs.zip pool).map
        (fun q => (q.1, newLeaseFor q.1 q.2 t dur))) newMac = none := by
      apply lookupMac_of_keys_ne
      intro p hp
      obtain ⟨⟨qa, qb⟩, hq, rfl⟩ := List.mem_map.mp hp
      intro he
      exact hnew (he ▸ (List.of_mem_zip hq).1)
    have hexp : ∀ p ∈ (macs.zip pool).map
        (fun q => (q.1, newLeaseFor q.1 q.2 t dur)), ¬ p.2.expiresAt < t := by
      intro p hp
      obtain ⟨⟨qa, qb⟩, hq, rfl⟩ := List.mem_map.mp hp
      simp [newLeaseFor]
    unfold resolve allocateNew
    simp only [lookupReserved, hl, sweepReclaim_noop _ _ _ _ _ _ hexp]
  · intro s mac now ord1 hres1 hl1
    unfold resolve allocateNew
    simp only [hres1, hl1]
    rcases hs : sweepReclaim s.config.reservedAddresses s.leases mac now ord1
        s.availableIPs with _ | ⟨ip0, rest⟩ <;> simp [hs]

theorem C6_pool_exhaustion_witness :
    (["aa", "bb"] : List MacStr).Nodup ∧ ("cc" : MacStr) ∉ ["aa", "bb"] ∧
    (runAll ⟨⟨[], 5⟩, [], [4, 6]⟩ [("aa", 0), ("bb", 0)]).1 = [.ok 4, .ok 6] ∧
    (resolve (runAll ⟨⟨[], 5⟩, [], [4, 6]⟩ [("aa", 0), ("bb", 0)]).2
        "cc" 0 []).1 = .error .poolExhausted := by
  have h := C6_pool_exhaustion 5 0 [4, 6] ["aa", "bb"] "cc" []
    (by decide) (by decide) (by decide)
  exact ⟨by decide, by decide, h.1, h.2.1⟩

/-- C7 counterexample: in the spec's 3-address scenario, after all three
leases expire, the address `resolve("dd")` hands out is whichever expired
lease the map-iteration order visits first — the legal iteration order
`["cc", "bb", "aa"]` (a permutation of the lease-table keys) yields
`10.0.0.4`, not the claimed `10.0.0.2`. -/
theorem C7_fifo_determinism_refuted :
    scenarioState.leases.map Prod.fst = ["aa", "bb", "cc"] ∧
    (["cc", "bb", "aa"] : List MacStr).Perm (scenarioState.leases.map Prod.fst) ∧
    (resolve scenarioState "dd" 2 ["cc", "bb", "aa"]).1 =
      .ok (mkIPv4 10 0 0 4) ∧
    mkIPv4 10 0 0 4 ≠ mkIPv4 10 0 0 2 := by
  refine ⟨by decide, by decide, by decide, by decide⟩

/-- Every permutation of a three-element list of distinct elements is one of
the six explicit arrangements. -/
theorem perm_of_three {a b c : MacStr} (ord : List MacStr)
    (h : ord.Perm [a, b, c]) (hab : a ≠ b) (hac : a ≠ c) (hbc : b ≠ c) :
    ord = [a, b, c] ∨ ord = [a, c, b] ∨ ord = [b, a, c] ∨
    ord = [b, c, a] ∨ ord = [c, a, b] ∨ ord = [c, b, a] := by
  have hnd : ord.Nodup := h.nodup_iff.mpr (by simp [hab, hac, hbc])
  have hlen : ord.length = 3 := by simpa using h.length_eq
  rcases ord with _ | ⟨x, _ | ⟨y, _ | ⟨z, _ | _⟩⟩⟩ <;> simp_all
  have hx : x ∈ [a, b, c] := h.mem_iff.mp (by simp)
  have hy : y ∈ [a, b, c] := h.mem_iff.mp (by simp)
  have hz : z ∈ [a, b, c] := h.mem_iff.mp (by simp)
  simp only [List.mem_cons, List.mem_singleton, List.not_mem_nil, or_false] at hx hy hz
  obtain ⟨⟨hxy, hxz⟩, hyz⟩ : (x ≠ y ∧ x ≠ z) ∧ y ≠ z := by
    simpa [List.nodup_cons] using hnd
  rcases hx with rfl | rfl | rfl <;> rcases hy with rfl | rfl | rfl <;>
    rcases hz with rfl | rfl | rfl <;> simp_all

set_option maxRecDepth 8192 in
/-- C7 (amended): in the spec's 3-address scenario, after all leases expire,
`resolve("dd")` succeeds and returns one of the three expired addresses for
every map-iteration order, and returns `10.0.0.2` when the iteration order
happens to be the insertion order — but the order, hence the address, is
not determined by the code. -/
theorem C7_reclaim_one_of_expired (ord : List MacStr)
    (h : ord.Perm (scenarioState.leases.map Prod.fst)) :
    (resolve scenarioState "dd" 2 ord).1 ∈
      [Except.ok (mkIPv4 10 0 0 2), Except.ok (mkIPv4 10 0 0 3),
       Except.ok (mkIPv4 10 0 0 4)] ∧
    (ord = scenarioState.leases.map Prod.fst →
      (resolve scenarioState "dd" 2 ord).1 = .ok (mkIPv4 10 0 0 2)) := by
  have he : scenarioState.leases.map Prod.fst = ["aa", "bb", "cc"] := by decide
  rw [he] at h ⊢
  have hcases := perm_of_three ord h (by decide) (by decide) (by decide)
  rcases hcases with rfl | rfl | rfl | rfl | rfl | rfl <;>
    exact ⟨by decide, by decide⟩

set_option maxRecDepth 8192 in
theorem C7_reclaim_one_of_expired_witness :
    (["aa", "bb", "cc"] : List MacStr).Perm (scenarioState.leases.map Prod.fst) ∧
    (resolve scenarioState "dd" 2 ["aa", "bb", "cc"]).1 =
      .ok (mkIPv4 10 0 0 2) := by
  have hp : (["aa", "bb", "cc"] : List MacStr).Perm
      (scenarioState.leases.map Prod.fst) := by
    rw [show scenarioState.leases.map Prod.fst = ["aa", "bb", "cc"] from by decide]
  exact ⟨hp, (C7_reclaim_one_of_expired ["aa", "bb", "cc"] hp).2 (by decide)⟩

/-! ### Pool construction (C8) -/

theorem filterMap_reserved (l : List Nat) (r : List (MacStr × Option IP)) :
    (l.filterMap (fun i =>
      let ip := mkIPv4 192 168 2 i
      if ip ∈ reservedIPValues r then none else some ip)) =
    (l.map (mkIPv4 192 168 2)).filter (fun ip => decide (ip ∉ reservedIPValues r)) := by
  induction l with
  | nil => rfl
  | cons a l ih =>
    simp only [List.filterMap_cons, List.map_cons, List.filter_cons]
    by_cases h : mkIPv4 192 168 2 a ∈ reservedIPValues r
    · simp [h, ih]
    · simp [h, ih]

set_option maxRecDepth 100000 in
/-- C8 counterexample: the pool is not built from any configured range — the
`Config` structure has no range field and `NewDHCPServer` hardcodes
`192.168.2.2`-`192.168.2.254`; with no reservations the pool a configured
range `10.0.0.2`-`10.0.0.4` would demand differs from the constructed one,
whose head is always `192.168.2.2` and whose length is always 253. -/
theorem C8_configured_range_refuted :
    mkAvailableIPs [] ≠ specAddressPool (mkIPv4 10 0 0 2) (mkIPv4 10 0 0 4) [] ∧
    (mkAvailableIPs []).head? = some (mkIPv4 192 168 2 2) ∧
    (mkAvailableIPs []).length = 253 := by
  refine ⟨by decide, by decide, by decide⟩

set_option maxRecDepth 100000 in
/-- C8 (amended): the initial pool is constructed, in order, from the fixed
built-in inclusive range `192.168.2.2`-`192.168.2.254` (the range is
hardcoded, not configured) with every address appearing as a reservation
value removed at construction time. -/
theorem C8_pool_construction (r : List (MacStr × Option IP)) :
    mkAvailableIPs r =
      specAddressPool (mkIPv4 192 168 2 2) (mkIPv4 192 168 2 254) r := by
  unfold mkAvailableIPs specAddressPool
  rw [show mkIPv4 192 168 2 254 + 1 - mkIPv4 192 168 2 2 = 253 from by decide,
    show List.range' (mkIPv4 192 168 2 2) 253 =
      (List.range' 2 253).map (mkIPv4 192 168 2) from by decide,
    filterMap_reserved]

end DHCP
